import Mathlib

/-!
Verification of the script generation / validation / link-normalization core
of the mcp-server-script-podcast repository (src/generate_script.py).

Python text is modelled as `List Char` (named `Str` below); Python string
operations (`in`, `replace`, `strip`, `split`, `join`, regex substitution
with literal alternatives) are modelled as executable functions on `List Char`.
-/

set_option maxHeartbeats 2000000
set_option maxRecDepth 10000

/-- Python strings are modelled as lists of characters. -/
abbrev Str := List Char

/-- Conversion from a Lean string literal to the model type. -/
def str (s : String) : Str := s.data

/-- Characters stripped by Python's `str.strip()` (ASCII whitespace). -/
def pySpace (c : Char) : Bool :=
  c = ' ' || c = '\t' || c = '\n' || c = '\r' || c = '\x0b' || c = '\x0c'

/-- Python `s.strip()`: remove leading and trailing whitespace. -/
def pyStrip (s : Str) : Str :=
  ((s.dropWhile pySpace).reverse.dropWhile pySpace).reverse

/-- Python `text.split('\n')`. -/
def splitOnNl : Str → List Str
  | [] => [[]]
  | c :: rest =>
    if c = '\n' then [] :: splitOnNl rest
    else
      match splitOnNl rest with
      | [] => [[c]]
      | l :: ls => (c :: l) :: ls

/-- Python `'\n'.join(lines)`. -/
def joinNl : List Str → Str
  | [] => []
  | [l] => l
  | l :: ls => l ++ '\n' :: joinNl ls

/--
One step of regex-style substitution with literal alternatives, fuelled to
make the recursion structural.  At each position the first key of `keys`
(which the callers sort longest-first) that is a prefix of the remaining
text is replaced by its value and the scan resumes after the match;
otherwise one character is emitted.  Callers only pass non-empty keys
(Python filters them out before building the regex), so the empty-key
branch is unreachable there.
-/
def substFuel (keys : List (Str × Str)) : Nat → Str → Str
  | _, [] => []
  | 0, t => t
  | fuel + 1, c :: rest =>
    match keys.find? (fun kv => kv.1.isPrefixOf (c :: rest)) with
    | some kv =>
      match kv.1 with
      | [] => c :: substFuel keys fuel rest
      | _ :: ktail => kv.2 ++ substFuel keys fuel (rest.drop ktail.length)
    | none => c :: substFuel keys fuel rest

/-- Substitution of the first-matching literal key at every scan position
(the model of `re.sub` over an alternation of escaped literal keys). -/
def subst (keys : List (Str × Str)) (t : Str) : Str :=
  substFuel keys t.length t

/-- Python `s.replace(pat, rep)` (all non-overlapping occurrences,
left to right); callers only use non-empty patterns. -/
def strReplace (s pat rep : Str) : Str :=
  subst [(pat, rep)] s

/-- Python `dict` insertion: overwrite the value in place if the key is
present, otherwise append the binding. -/
def dictInsert (d : List (Str × Str)) (k v : Str) : List (Str × Str) :=
  if d.any (fun kv => kv.1 = k) then
    d.map (fun kv => if kv.1 = k then (k, v) else kv)
  else d ++ [(k, v)]

/-- `combined_dict = {}; for d in dict_list: combined_dict.update(d)`. -/
def combineDicts (ds : List (List (Str × Str))) : List (Str × Str) :=
  ds.foldl (fun acc d => d.foldl (fun a kv => dictInsert a kv.1 kv.2) acc) []

/-- Insert into a length-descending list, before existing entries of equal
key length (so the overall sort is stable, like Python's). -/
def insertDesc (x : Str × Str) : List (Str × Str) → List (Str × Str)
  | [] => [x]
  | y :: ys =>
    if x.1.length < y.1.length then y :: insertDesc x ys else x :: y :: ys

/-- Python `sorted(keys, key=len, reverse=True)` (stable). -/
def sortDesc : List (Str × Str) → List (Str × Str)
  | [] => []
  | x :: xs => insertDesc x (sortDesc xs)

/--
`replace_keys_with_values(text, dict_list)` from src/generate_script.py:
merge the dictionaries, drop keys that are empty or whitespace-only,
return the text unchanged if nothing remains, otherwise substitute every
key by its value in one pass with the keys sorted longest first.
-/
def replace_keys_with_values (text : Str) (dict_list : List (List (Str × Str))) : Str :=
  let combined_dict := combineDicts dict_list
  let valid := combined_dict.filter (fun kv => !kv.1.isEmpty && !(pyStrip kv.1).isEmpty)
  if valid = [] then text
  else subst (sortDesc valid) text

/-- Python `pat in s` on strings: `pat` occurs as a contiguous substring. -/
def isSubstr (pat : Str) : Str → Bool
  | [] => pat.isEmpty
  | c :: t => pat.isPrefixOf (c :: t) || isSubstr pat t

/--
`adjust_links.get_link(link, paper_id)` from src/generate_script.py: the
per-line correction rule chain.  Note the source operates on the whole
line: it replaces the marker `![](` by a base URL, deletes every `)` of
the line and wraps the whole result in `![](` ... `)`.
-/
def get_link (link : Str) (paper_id : Str) : Str :=
  if pyStrip link = [] then link
  else if isSubstr (str "ar5iv.labs.arxiv.org") link then
    str "![](" ++ strReplace (strReplace link (str "![](") (str "https://")) (str ")") [] ++ str ")"
  else if isSubstr (str "https:/arxiv.org/html/" ++ paper_id ++ str "/") link then
    str "![](" ++
      strReplace (strReplace link (str "![](") (str "https://arxiv.org/html/" ++ paper_id ++ str "/"))
        (str ")") [] ++ str ")"
  else if isSubstr (str "(arxiv.org") link then
    str "![](" ++
      strReplace (strReplace link (str "![](arxiv.org") (str "https://arxiv.org/html/" ++ paper_id))
        (str ")") [] ++ str ")"
  else
    str "![](" ++
      strReplace (strReplace link (str "![](") (str "https://arxiv.org/html/" ++ paper_id ++ str "/"))
        (str ")") [] ++ str ")"

/--
`adjust_links(text_md, paper_id)` from src/generate_script.py: collect the
non-blank lines containing the image marker `![](`, build one singleton
dictionary per line mapping it to `get_link` of the line (skipping no-op
rewrites; `get_link` is total, so the `except` branch of the source is
unreachable), and apply `replace_keys_with_values` to the whole document.
-/
def adjust_links (text_md : Str) (paper_id : Str) : Str :=
  let lines_with_images :=
    (splitOnNl text_md).filter (fun line => !(pyStrip line).isEmpty && isSubstr (str "![](") line)
  let links := lines_with_images.filterMap (fun line =>
    let processed_link := get_link line paper_id
    if !(pyStrip line).isEmpty && !(pyStrip processed_link).isEmpty && line ≠ processed_link then
      some [(line, processed_link)]
    else none)
  replace_keys_with_values text_md links

/-- `ScriptComponent` from src/generate_script.py: one beat of the script.
The source declares `component_type` as a plain `str` (the two legal
values are enforced by the validator, not by the type). -/
structure ScriptComponent where
  component_type : Str
  content : Str
  position : Int
deriving DecidableEq, Inhabited

/-- The `ArxflixScript` model built by `generate_model_with_context_check`.
`target_duration_minutes` is a Python float constrained to `[0, 6]` by a
pydantic field bound; no arithmetic is performed on it in the validator,
so it is modelled as a rational. -/
structure ArxflixScript where
  title : Str
  paper_id : Str
  target_duration_minutes : Rat
  components : List ScriptComponent
deriving DecidableEq, Inhabited

/-- Outcome of running the pydantic model validator: success, a raised
`ValueError` carrying the collected violation messages, or the uncaught
`IndexError` raised by `sorted_components[0]` on an empty list. -/
inductive ValidationOutcome where
  | ok (script : ArxflixScript)
  | valueError (errors : List Str)
  | indexError
deriving DecidableEq

/-- The violation message of invariant 5:
`f"The paper id is {paper_id}, you wrote a wrong one, correct it everywhere"`. -/
def paperIdErrMsg (paper_id : Str) : Str :=
  str "The paper id is " ++ paper_id ++ str ", you wrote a wrong one, correct it everywhere"

/-- The violation message for two adjacent components of the same
non-Text type: `f"Consecutive {t} components are not allowed"`. -/
def consecutiveErrMsg (t : Str) : Str :=
  str "Consecutive " ++ t ++ str " components are not allowed"

/-- The invariant-6 violation message (triple-quoted f-string of the
source, leading type inserted, line breaks and indentation kept). -/
def componentTypeErrMsg (t : Str) : Str :=
  t ++ str " is not a valid component_type.\n                             Type of autorized script component\n                                    Only one of : \n                                    - Text \n                                    - Headline"

/-- The loop `for i in range(1, len(sorted_components))`: one violation per
adjacent pair with equal stripped types that are not `Text`. -/
def adjacentErrors : List ScriptComponent → List Str
  | a :: b :: rest =>
    (if pyStrip b.component_type = pyStrip a.component_type ∧
        pyStrip b.component_type ≠ str "Text" then
      [consecutiveErrMsg (pyStrip b.component_type)]
    else []) ++ adjacentErrors (b :: rest)
  | _ => []

/-- The loop `for comp in values.components`: one violation per component
whose stripped type is neither `Text` nor `Headline`. -/
def componentTypeErrors : List ScriptComponent → List Str
  | [] => []
  | comp :: rest =>
    (if pyStrip comp.component_type ≠ str "Text" ∧
        pyStrip comp.component_type ≠ str "Headline" then
      [componentTypeErrMsg (pyStrip comp.component_type)]
    else []) ++ componentTypeErrors rest

/-- Stable insertion for `sorted(components, key=lambda x: x.position)`. -/
def insertByPos (x : ScriptComponent) : List ScriptComponent → List ScriptComponent
  | [] => [x]
  | y :: ys => if y.position < x.position then y :: insertByPos x ys else x :: y :: ys

/-- Python `sorted(components, key=lambda x: x.position)` (stable). -/
def pySortByPosition : List ScriptComponent → List ScriptComponent
  | [] => []
  | x :: xs => insertByPos x (pySortByPosition xs)

/-- `list(range(n))` as Python integers. -/
def rangeInt (n : Nat) : List Int :=
  (List.range n).map (fun i => Int.ofNat i)

/--
`validate_script_structure` from `generate_model_with_context_check` in
src/generate_script.py, with `paper_id` the expected identifier captured
by the enclosing closure.  Violations are collected in `errors` and raised
together as one `ValueError` at the end; the indexing
`sorted_components[0]` on an empty list raises an uncaught `IndexError`
(modelled by `ValidationOutcome.indexError`, which discards the errors
collected so far, as the exception does).
-/
def validate_script_structure (paper_id : Str) (values : ArxflixScript) : ValidationOutcome :=
  let components := values.components
  let errs1 : List Str :=
    if components = [] then [str "Script must contain at least one component"] else []
  if paper_id ≠ str "paper_id" ∧ values.paper_id ≠ paper_id then
    let errs := errs1 ++ [paperIdErrMsg paper_id] ++ componentTypeErrors values.components
    if errs = [] then .ok values else .valueError errs
  else
    let sorted_components := pySortByPosition components
    let errs2 := errs1 ++
      (if sorted_components.map (fun c => c.position) ≠ rangeInt sorted_components.length then
        [str "Component positions must be consecutive integers starting from 0"]
      else [])
    match sorted_components with
    | [] => .indexError
    | first :: rest =>
      let errs3 := errs2 ++
        (if pyStrip first.component_type ≠ str "Headline" then
          [str "Script must start with a Headline component"]
        else [])
      let errs4 := errs3 ++ adjacentErrors (first :: rest)
      let values' := { values with components := first :: rest }
      let errs5 := errs4 ++ componentTypeErrors values'.components
      if errs5 = [] then .ok values' else .valueError errs5

/-- The violation messages carried by the outcome (empty for success and
for the uncaught `IndexError`, which aborts before raising them). -/
def errorsOf : ValidationOutcome → List Str
  | .valueError es => es
  | _ => []

/-- `reconstruct_script` from src/generate_script.py:
`'\n'.join(f"\\{comp.component_type.strip()}: {comp.content}" for comp in script.components)`. -/
def reconstruct_script (script : ArxflixScript) : Str :=
  joinNl (script.components.map (fun comp =>
    '\\' :: (pyStrip comp.component_type ++ str ": " ++ comp.content)))

/-- Modelled from the spec: the serialized-script line format of §6
(`\<Kind>: <content>`, one line per component) read back, for the
round-trip property; the consuming parser itself is not part of src/.
A line parses when it starts with a backslash, continues with the kind
(the characters before the first colon), then a colon and a space, then
the content (the rest of the line). -/
def parseScriptLine (line : Str) : Option (Str × Str) :=
  match line with
  | '\\' :: rest =>
    match rest.dropWhile (fun c => c ≠ ':') with
    | ':' :: ' ' :: content => some (rest.takeWhile (fun c => c ≠ ':'), content)
    | _ => none
  | _ => none

/-- Modelled from the spec: parsing a list of serialized lines back into
`(kind, content)` pairs; any malformed line fails the whole parse. -/
def parseScriptLines : List Str → Option (List (Str × Str))
  | [] => some []
  | l :: ls =>
    match parseScriptLine l, parseScriptLines ls with
    | some p, some ps => some (p :: ps)
    | _, _ => none

/-- Modelled from the spec: parsing a whole serialized script text back
into its ordered `(kind, content)` pairs, line by line. -/
def parseScriptText (text : Str) : Option (List (Str × Str)) :=
  parseScriptLines (splitOnNl text)

/-- The two system-instruction variants of `_process_script_openrouter`:
`SYSTEM_PROMPT_NO_LINK` is selected exactly when the identifier is the
sentinel `"paper_id"`. -/
inductive PromptVariant where
  | withLinks
  | noLinks
deriving DecidableEq

/-- The request data handed to the generative backend. -/
structure BackendRequest where
  system_prompt : PromptVariant
  document : Str
  paper_id : Str
deriving DecidableEq

/-- The deterministic pre-processing of `process_script` (src/generate_script.py)
composed with the prompt selection of `_process_script_openrouter`
(the `method = "openrouter"` path): when `from_pdf` is false the document
is link-normalized, otherwise it is passed through raw and the identifier
is replaced by the sentinel `"paper_id"`; the system prompt is
`SYSTEM_PROMPT_NO_LINK` iff the resulting identifier is the sentinel. -/
def process_script_request (paper_markdown : Str) (paper_id : Str) (from_pdf : Bool) : BackendRequest :=
  let pd_corrected_links := if from_pdf then paper_markdown else adjust_links paper_markdown paper_id
  let pid := if from_pdf then str "paper_id" else paper_id
  { system_prompt := if pid = str "paper_id" then .noLinks else .withLinks
    document := pd_corrected_links
    paper_id := pid }

/-! ### Basic lemmas about the text model -/

theorem isSubstr_iff (p : Str) : ∀ (l : Str), isSubstr p l = true ↔ p <:+: l := by
  intro l
  induction l with
  | nil => simp [isSubstr]
  | cons c t ih =>
    simp [isSubstr, ih, List.infix_cons_iff]

theorem pyStrip_nil : pyStrip [] = [] := rfl

theorem pyStrip_ne_nil_of_head (c : Str) (a : Char) (t : Str) (hc : c = a :: t)
    (ha : pySpace a = false) : pyStrip c ≠ [] := by
  subst hc
  simp only [pyStrip, List.dropWhile_cons, ha]
  simp only [Bool.false_eq_true, if_false, ne_eq, List.reverse_eq_nil_iff]
  rw [List.dropWhile_eq_nil_iff]
  intro h
  have := h a (by simp)
  rw [ha] at this
  exact Bool.false_ne_true this

theorem substFuel_nil (keys : List (Str × Str)) (fuel : Nat) :
    substFuel keys fuel [] = [] := by
  cases fuel <;> rfl

theorem substFuel_congr (keys : List (Str × Str)) :
    ∀ (f₁ : Nat) (f₂ : Nat) (t : Str), t.length ≤ f₁ → t.length ≤ f₂ →
      substFuel keys f₁ t = substFuel keys f₂ t := by
  intro f₁
  induction f₁ with
  | zero =>
    intro f₂ t h₁ _
    have : t = [] := List.length_eq_zero.mp (Nat.le_zero.mp h₁)
    subst this
    simp [substFuel_nil]
  | succ f ih =>
    intro f₂ t h₁ h₂
    match t with
    | [] => simp [substFuel_nil]
    | c :: rest =>
      match f₂ with
      | 0 => simp at h₂
      | f₂' + 1 =>
        simp only [List.length_cons, Nat.succ_le_succ_iff] at h₁ h₂
        simp only [substFuel]
        cases hf : keys.find? (fun kv => kv.1.isPrefixOf (c :: rest)) with
        | none =>
          rw [ih f₂' rest h₁ h₂]
        | some kv =>
          obtain ⟨k, v⟩ := kv
          cases k with
          | nil =>
            simp only
            rw [ih f₂' rest h₁ h₂]
          | cons kh ktail =>
            simp only
            have hd : (rest.drop ktail.length).length ≤ rest.length := by
              rw [List.length_drop]; omega
            rw [ih f₂' (rest.drop ktail.length) (Nat.le_trans hd h₁) (Nat.le_trans hd h₂)]

theorem subst_nil (keys : List (Str × Str)) : subst keys [] = [] := rfl

theorem subst_cons (keys : List (Str × Str)) (c : Char) (rest : Str) :
    subst keys (c :: rest) =
      match keys.find? (fun kv => kv.1.isPrefixOf (c :: rest)) with
      | some kv =>
        match kv.1 with
        | [] => c :: subst keys rest
        | _ :: ktail => kv.2 ++ subst keys (rest.drop ktail.length)
      | none => c :: subst keys rest := by
  show substFuel keys (rest.length + 1) (c :: rest) = _
  simp only [substFuel]
  cases hf : keys.find? (fun kv => kv.1.isPrefixOf (c :: rest)) with
  | none =>
    rfl
  | some kv =>
    obtain ⟨k, v⟩ := kv
    cases k with
    | nil => rfl
    | cons kh ktail =>
      simp only
      have hd : (rest.drop ktail.length).length ≤ rest.length := by
        rw [List.length_drop]; omega
      rw [substFuel_congr keys rest.length (rest.drop ktail.length).length
        (rest.drop ktail.length) hd (Nat.le_refl _)]
      rfl

theorem find?_congr_pred {α : Type} (p q : α → Bool) : ∀ (l : List α),
    (∀ x ∈ l, p x = q x) → l.find? p = l.find? q := by
  intro l
  induction l with
  | nil => intro _; rfl
  | cons x xs ih =>
    intro h
    have hx := h x (by simp)
    simp only [List.find?_cons]
    rw [hx]
    cases q x with
    | true => rfl
    | false => exact ih (fun y hy => h y (by simp [hy]))

theorem subst_of_no_match (keys : List (Str × Str)) : ∀ (t : Str),
    (∀ kv ∈ keys, ¬ kv.1 <:+: t) → subst keys t = t := by
  intro t
  induction t with
  | nil => intro _; rfl
  | cons c rest ih =>
    intro h
    rw [subst_cons]
    cases hf : keys.find? (fun kv => kv.1.isPrefixOf (c :: rest)) with
    | none =>
      simp only
      rw [ih (fun kv hkv hinf => h kv hkv (List.infix_cons hinf))]
    | some kv =>
      exfalso
      have hmem := List.mem_of_find?_eq_some hf
      have hpred := List.find?_some hf
      simp only [ List.isPrefixOf_iff_prefix] at hpred
      obtain ⟨t2, ht2⟩ := hpred
      exact h kv hmem ⟨[], t2, by simpa using ht2⟩

theorem prefix_append_nl_iff (k a b : Str) (hk : '\n' ∉ k) :
    k <+: (a ++ '\n' :: b) ↔ k <+: a := by
  constructor
  · intro h
    rcases Nat.lt_or_ge a.length k.length with hlt | hge
    · exfalso
      have hak : a <+: k :=
        List.prefix_of_prefix_length_le (List.prefix_append a ('\n' :: b)) h (Nat.le_of_lt hlt)
      obtain ⟨r, hr⟩ := hak
      subst hr
      obtain ⟨t, ht⟩ := h
      rw [List.append_assoc] at ht
      have hrt : r ++ t = '\n' :: b := List.append_cancel_left ht
      cases r with
      | nil => simp at hlt
      | cons rh rt =>
        have : rh = '\n' := by
          have := congrArg (fun l => l.head?) hrt
          simpa using this
        subst this
        exact hk (by simp)
    · exact List.prefix_of_prefix_length_le h (List.prefix_append a ('\n' :: b)) hge
  · intro h
    exact h.trans (List.prefix_append a ('\n' :: b))

theorem subst_nl_head (keys : List (Str × Str))
    (hk : ∀ kv ∈ keys, kv.1 ≠ [] ∧ '\n' ∉ kv.1) (b : Str) :
    subst keys ('\n' :: b) = '\n' :: subst keys b := by
  rw [subst_cons]
  cases hf : keys.find? (fun kv => kv.1.isPrefixOf ('\n' :: b)) with
  | none => rfl
  | some kv =>
    exfalso
    have hmem := List.mem_of_find?_eq_some hf
    have hpred := List.find?_some hf
    simp only [ List.isPrefixOf_iff_prefix] at hpred
    obtain ⟨hne, hnl⟩ := hk kv hmem
    cases hkv : kv.1 with
    | nil => exact hne hkv
    | cons kh kt =>
      rw [hkv] at hpred
      obtain ⟨t, ht⟩ := hpred
      have : kh = '\n' := by
        have := congrArg (fun l => l.head?) ht
        simpa using this
      rw [hkv, this] at hnl
      exact hnl (by simp)

theorem subst_append_nl (keys : List (Str × Str))
    (hk : ∀ kv ∈ keys, kv.1 ≠ [] ∧ '\n' ∉ kv.1) :
    ∀ (n : Nat) (a b : Str), a.length ≤ n →
      subst keys (a ++ '\n' :: b) = subst keys a ++ '\n' :: subst keys b := by
  intro n
  induction n with
  | zero =>
    intro a b ha
    have : a = [] := List.length_eq_zero.mp (Nat.le_zero.mp ha)
    subst this
    simpa using subst_nl_head keys hk b
  | succ n ih =>
    intro a b ha
    cases a with
    | nil => simpa using subst_nl_head keys hk b
    | cons c a' =>
      simp only [List.length_cons, Nat.succ_le_succ_iff] at ha
      have hcons : (c :: a') ++ '\n' :: b = c :: (a' ++ '\n' :: b) := rfl
      have hfind : keys.find? (fun kv => kv.1.isPrefixOf (c :: (a' ++ '\n' :: b))) =
          keys.find? (fun kv => kv.1.isPrefixOf (c :: a')) := by
        apply find?_congr_pred
        intro kv hkv
        have hnl := (hk kv hkv).2
        have hiff : (kv.1 <+: (c :: a') ++ '\n' :: b) ↔ (kv.1 <+: c :: a') :=
          prefix_append_nl_iff kv.1 (c :: a') b hnl
        rw [List.cons_append] at hiff
        show kv.1.isPrefixOf (c :: (a' ++ '\n' :: b)) = kv.1.isPrefixOf (c :: a')
        rw [Bool.eq_iff_iff]
        simp only [ List.isPrefixOf_iff_prefix]
        exact hiff
      rw [hcons, subst_cons, subst_cons keys c a', hfind]
      cases hf : keys.find? (fun kv => kv.1.isPrefixOf (c :: a')) with
      | none =>
        simp only
        rw [ih a' b ha]
        rfl
      | some kv =>
        obtain ⟨k, v⟩ := kv
        have hmem := List.mem_of_find?_eq_some hf
        have hpred := List.find?_some hf
        simp only [ List.isPrefixOf_iff_prefix] at hpred
        cases k with
        | nil => exact absurd rfl (hk ⟨[], v⟩ hmem).1
        | cons kh ktail =>
          simp only
          have hlen : ktail.length ≤ a'.length := by
            have := hpred.length_le
            simp at this
            omega
          rw [List.drop_append_of_le_length hlen]
          have hdlen : (a'.drop ktail.length).length ≤ n := by
            rw [List.length_drop]; omega
          rw [ih (a'.drop ktail.length) b hdlen, List.append_assoc]

theorem mem_subst (keys : List (Str × Str)) :
    ∀ (n : Nat) (t : Str) (c : Char), t.length ≤ n → c ∈ subst keys t →
      c ∈ t ∨ ∃ kv ∈ keys, c ∈ kv.2 := by
  intro n
  induction n with
  | zero =>
    intro t c ht hc
    have : t = [] := List.length_eq_zero.mp (Nat.le_zero.mp ht)
    subst this
    simp [subst_nil] at hc
  | succ n ih =>
    intro t c ht hc
    cases t with
    | nil => simp [subst_nil] at hc
    | cons a rest =>
      simp only [List.length_cons, Nat.succ_le_succ_iff] at ht
      rw [subst_cons] at hc
      cases hf : keys.find? (fun kv => kv.1.isPrefixOf (a :: rest)) with
      | none =>
        rw [hf] at hc
        simp only [List.mem_cons] at hc
        rcases hc with rfl | hc
        · exact Or.inl (by simp)
        · rcases ih rest c ht hc with h | h
          · exact Or.inl (by simp [h])
          · exact Or.inr h
      | some kv =>
        rw [hf] at hc
        obtain ⟨k, v⟩ := kv
        have hmem := List.mem_of_find?_eq_some hf
        cases k with
        | nil =>
          simp only [List.mem_cons] at hc
          rcases hc with rfl | hc
          · exact Or.inl (by simp)
          · rcases ih rest c ht hc with h | h
            · exact Or.inl (by simp [h])
            · exact Or.inr h
        | cons kh ktail =>
          simp only [List.mem_append] at hc
          rcases hc with hc | hc
          · exact Or.inr ⟨⟨kh :: ktail, v⟩, hmem, hc⟩
          · have hdl : (rest.drop ktail.length).length ≤ n := by
              rw [List.length_drop]; omega
            rcases ih (rest.drop ktail.length) c hdl hc with h | h
            · exact Or.inl (List.mem_cons_of_mem a (List.drop_subset ktail.length rest h))
            · exact Or.inr h

theorem splitOnNl_ne_nil (t : Str) : splitOnNl t ≠ [] := by
  cases t with
  | nil => simp [splitOnNl]
  | cons c rest =>
    simp only [splitOnNl]
    by_cases h : c = '\n'
    · simp [h]
    · simp only [h, if_false]
      cases splitOnNl rest <;> simp

theorem joinNl_splitOnNl : ∀ (t : Str), joinNl (splitOnNl t) = t := by
  intro t
  induction t with
  | nil => rfl
  | cons c rest ih =>
    simp only [splitOnNl]
    by_cases h : c = '\n'
    · subst h
      simp only [if_pos rfl]
      cases hs : splitOnNl rest with
      | nil => exact absurd hs (splitOnNl_ne_nil rest)
      | cons l ls =>
        rw [hs] at ih
        simp [joinNl, ih]
    · simp only [h, if_false]
      cases hs : splitOnNl rest with
      | nil => exact absurd hs (splitOnNl_ne_nil rest)
      | cons l ls =>
        rw [hs] at ih
        cases ls with
        | nil => simp only [joinNl] at ih ⊢; rw [ih]
        | cons l' ls' => simp only [joinNl] at ih ⊢; rw [List.cons_append, ih]

theorem splitOnNl_mem_no_nl : ∀ (t : Str) (L : Str), L ∈ splitOnNl t → '\n' ∉ L := by
  intro t
  induction t with
  | nil =>
    intro L hL
    simp [splitOnNl] at hL
    simp [hL]
  | cons c rest ih =>
    intro L hL
    simp only [splitOnNl] at hL
    by_cases h : c = '\n'
    · rw [if_pos h] at hL
      rcases List.mem_cons.mp hL with rfl | hL
      · simp
      · exact ih L hL
    · rw [if_neg h] at hL
      cases hs : splitOnNl rest with
      | nil => exact absurd hs (splitOnNl_ne_nil rest)
      | cons l ls =>
        rw [hs] at hL
        rcases List.mem_cons.mp hL with rfl | hL
        · intro hmem
          rcases List.mem_cons.mp hmem with hc | hmem'
          · exact h hc.symm
          · exact ih l (by simp [hs]) hmem'
        · exact ih L (by rw [hs]; exact List.mem_cons_of_mem l hL)

theorem splitOnNl_nl_free (l : Str) (h : '\n' ∉ l) : splitOnNl l = [l] := by
  induction l with
  | nil => rfl
  | cons c rest ih =>
    simp only [splitOnNl]
    have hc : ¬ c = '\n' := fun hc => h (by simp [hc])
    rw [if_neg hc, ih (fun hm => h (by simp [hm]))]

theorem splitOnNl_append_nl (l r : Str) (h : '\n' ∉ l) :
    splitOnNl (l ++ '\n' :: r) = l :: splitOnNl r := by
  induction l with
  | nil => simp [splitOnNl]
  | cons c rest ih =>
    have hc : ¬ c = '\n' := fun hc => h (by simp [hc])
    simp only [List.cons_append, splitOnNl, if_neg hc, List.append_eq]
    rw [ih (fun hm => h (by simp [hm]))]

theorem splitOnNl_joinNl : ∀ (ls : List Str), ls ≠ [] → (∀ L ∈ ls, '\n' ∉ L) →
    splitOnNl (joinNl ls) = ls := by
  intro ls
  induction ls with
  | nil => intro h; exact absurd rfl h
  | cons l ls' ih =>
    intro _ hfree
    cases ls' with
    | nil =>
      show splitOnNl (joinNl [l]) = [l]
      simp only [joinNl]
      exact splitOnNl_nl_free l (hfree l (by simp))
    | cons l' ls'' =>
      show splitOnNl (l ++ '\n' :: joinNl (l' :: ls'')) = l :: l' :: ls''
      rw [splitOnNl_append_nl l _ (hfree l (by simp))]
      rw [ih (by simp) (fun L hL => hfree L (by simp [hL]))]

theorem subst_joinNl (keys : List (Str × Str))
    (hk : ∀ kv ∈ keys, kv.1 ≠ [] ∧ '\n' ∉ kv.1) :
    ∀ (ls : List Str), subst keys (joinNl ls) = joinNl (ls.map (subst keys)) := by
  intro ls
  induction ls with
  | nil => simp [joinNl, subst_nil]
  | cons l ls' ih =>
    cases ls' with
    | nil => simp [joinNl]
    | cons l' ls'' =>
      show subst keys (l ++ '\n' :: joinNl (l' :: ls'')) = _
      rw [subst_append_nl keys hk l.length l (joinNl (l' :: ls'')) (Nat.le_refl _), ih]
      rfl

theorem mem_strReplace (s pat rep : Str) (c : Char) (hc : c ∈ strReplace s pat rep) :
    c ∈ s ∨ c ∈ rep := by
  rcases mem_subst [(pat, rep)] s.length s c (Nat.le_refl _) hc with h | ⟨kv, hkv, hc2⟩
  · exact Or.inl h
  · simp only [List.mem_singleton] at hkv
    subst hkv
    exact Or.inr hc2

theorem subst_no_nl (keys : List (Str × Str)) (t : Str) (ht : '\n' ∉ t)
    (hv : ∀ kv ∈ keys, '\n' ∉ kv.2) : '\n' ∉ subst keys t := by
  intro hmem
  rcases mem_subst keys t.length t '\n' (Nat.le_refl _) hmem with h | ⟨kv, hkv, hc⟩
  · exact ht h
  · exact hv kv hkv hc

theorem mem_insertDesc (x : Str × Str) : ∀ (l : List (Str × Str)) (y : Str × Str),
    y ∈ insertDesc x l → y = x ∨ y ∈ l := by
  intro l
  induction l with
  | nil => intro y hy; simp [insertDesc] at hy; simp [hy]
  | cons z zs ih =>
    intro y hy
    simp only [insertDesc] at hy
    by_cases h : x.1.length < z.1.length
    · rw [if_pos h] at hy
      rcases List.mem_cons.mp hy with rfl | hy
      · exact Or.inr (by simp)
      · rcases ih y hy with h1 | h1
        · exact Or.inl h1
        · exact Or.inr (by simp [h1])
    · rw [if_neg h] at hy
      rcases List.mem_cons.mp hy with rfl | hy
      · exact Or.inl rfl
      · exact Or.inr hy

theorem mem_sortDesc : ∀ (l : List (Str × Str)) (y : Str × Str),
    y ∈ sortDesc l → y ∈ l := by
  intro l
  induction l with
  | nil => intro y hy; simp [sortDesc] at hy
  | cons x xs ih =>
    intro y hy
    simp only [sortDesc] at hy
    rcases mem_insertDesc x (sortDesc xs) y hy with rfl | hy
    · simp
    · exact List.mem_cons_of_mem x (ih y hy)

theorem mem_dictInsert (d : List (Str × Str)) (k v : Str) (kv : Str × Str)
    (h : kv ∈ dictInsert d k v) : kv ∈ d ∨ kv = (k, v) := by
  simp only [dictInsert] at h
  by_cases hc : d.any (fun kv => kv.1 = k)
  · rw [if_pos hc] at h
    rcases List.mem_map.mp h with ⟨kv', hkv', heq⟩
    by_cases he : kv'.1 = k
    · rw [if_pos he] at heq
      exact Or.inr heq.symm
    · rw [if_neg he] at heq
      exact Or.inl (heq ▸ hkv')
  · rw [if_neg hc] at h
    rcases List.mem_append.mp h with h1 | h1
    · exact Or.inl h1
    · exact Or.inr (List.mem_singleton.mp h1)

theorem mem_foldl_dictInsert : ∀ (d : List (Str × Str)) (acc : List (Str × Str)) (kv : Str × Str),
    kv ∈ d.foldl (fun a kv' => dictInsert a kv'.1 kv'.2) acc → kv ∈ acc ∨ kv ∈ d := by
  intro d
  induction d with
  | nil => intro acc kv h; exact Or.inl h
  | cons x xs ih =>
    intro acc kv h
    simp only [List.foldl_cons] at h
    rcases ih (dictInsert acc x.1 x.2) kv h with h1 | h1
    · rcases mem_dictInsert acc x.1 x.2 kv h1 with h2 | h2
      · exact Or.inl h2
      · exact Or.inr (by simp [h2])
    · exact Or.inr (by simp [h1])

theorem mem_combineDicts : ∀ (ds : List (List (Str × Str))) (kv : Str × Str),
    kv ∈ combineDicts ds → ∃ d ∈ ds, kv ∈ d := by
  have haux : ∀ (ds : List (List (Str × Str))) (acc : List (Str × Str)) (kv : Str × Str),
      kv ∈ ds.foldl (fun acc d => d.foldl (fun a kv' => dictInsert a kv'.1 kv'.2) acc) acc →
        kv ∈ acc ∨ ∃ d ∈ ds, kv ∈ d := by
    intro ds
    induction ds with
    | nil => intro acc kv h; exact Or.inl h
    | cons d dsr ih =>
      intro acc kv h
      simp only [List.foldl_cons] at h
      rcases ih _ kv h with h1 | ⟨d', hd', hkv⟩
      · rcases mem_foldl_dictInsert d acc kv h1 with h2 | h2
        · exact Or.inl h2
        · exact Or.inr ⟨d, by simp, h2⟩
      · exact Or.inr ⟨d', by simp [hd'], hkv⟩
  intro ds kv h
  rcases haux ds [] kv h with h1 | h1
  · simp at h1
  · exact h1

theorem get_link_no_nl (link paper_id : Str) (hl : '\n' ∉ link) (hid : '\n' ∉ paper_id) :
    '\n' ∉ get_link link paper_id := by
  have hlit : ∀ (s : String), '\n' ∉ s.data → '\n' ∉ str s := fun s h => h
  have hwrap : ∀ (mid : Str), '\n' ∉ mid → '\n' ∉ str "![](" ++ mid ++ str ")" := by
    intro mid hmid hmem
    rcases List.mem_append.mp hmem with h1 | h1
    · rcases List.mem_append.mp h1 with h2 | h2
      · revert h2; decide
      · exact hmid h2
    · revert h1; decide
  have hrep : ∀ (s pat rep : Str), '\n' ∉ s → '\n' ∉ rep → '\n' ∉ strReplace s pat rep := by
    intro s pat rep hs hr hmem
    rcases mem_strReplace s pat rep '\n' hmem with h | h
    · exact hs h
    · exact hr h
  have hbase : '\n' ∉ str "https://arxiv.org/html/" ++ paper_id ++ str "/" := by
    intro hmem
    rcases List.mem_append.mp hmem with h1 | h1
    · rcases List.mem_append.mp h1 with h2 | h2
      · revert h2; decide
      · exact hid h2
    · revert h1; decide
  have hbase2 : '\n' ∉ str "https://arxiv.org/html/" ++ paper_id := by
    intro hmem
    rcases List.mem_append.mp hmem with h1 | h1
    · revert h1; decide
    · exact hid h1
  unfold get_link
  by_cases h0 : pyStrip link = []
  · rw [if_pos h0]; exact hl
  rw [if_neg h0]
  by_cases h1 : isSubstr (str "ar5iv.labs.arxiv.org") link = true
  · rw [if_pos h1]
    exact hwrap _ (hrep _ _ _ (hrep _ _ _ hl (by decide)) (by simp))
  rw [if_neg h1]
  by_cases h2 : isSubstr (str "https:/arxiv.org/html/" ++ paper_id ++ str "/") link = true
  · rw [if_pos h2]
    exact hwrap _ (hrep _ _ _ (hrep _ _ _ hl hbase) (by simp))
  rw [if_neg h2]
  by_cases h3 : isSubstr (str "(arxiv.org") link = true
  · rw [if_pos h3]
    exact hwrap _ (hrep _ _ _ (hrep _ _ _ hl hbase2) (by simp))
  rw [if_neg h3]
  exact hwrap _ (hrep _ _ _ (hrep _ _ _ hl hbase) (by simp))

theorem subst_line_preserved (keys : List (Str × Str))
    (hk : ∀ kv ∈ keys, kv.1 ≠ [] ∧ '\n' ∉ kv.1 ∧ '\n' ∉ kv.2 ∧ (str "![](") <:+: kv.1)
    (d : Str) (i : Nat) (L : Str) (hL : (splitOnNl d).get? i = some L)
    (hm : ¬ (str "![](") <:+: L) :
    (splitOnNl (subst keys d)).get? i = some L := by
  have hk1 : ∀ kv ∈ keys, kv.1 ≠ [] ∧ '\n' ∉ kv.1 := fun kv h => ⟨(hk kv h).1, (hk kv h).2.1⟩
  have hsub : subst keys d = joinNl ((splitOnNl d).map (subst keys)) := by
    conv_lhs => rw [← joinNl_splitOnNl d]
    exact subst_joinNl keys hk1 (splitOnNl d)
  rw [hsub]
  rw [splitOnNl_joinNl ((splitOnNl d).map (subst keys))
    (by simp [splitOnNl_ne_nil d])
    (by
      intro L' hL'
      rcases List.mem_map.mp hL' with ⟨line, hline, rfl⟩
      exact subst_no_nl keys line (splitOnNl_mem_no_nl d line hline)
        (fun kv h => (hk kv h).2.2.1))]
  rw [List.get?_map, hL]
  have hfix : subst keys L = L := by
    apply subst_of_no_match
    intro kv hkv hinf
    exact hm (((hk kv hkv).2.2.2).trans hinf)
  simp [hfix]

theorem replace_line_preserved (text : Str) (dicts : List (List (Str × Str)))
    (hk : ∀ dct ∈ dicts, ∀ kv ∈ dct,
      kv.1 ≠ [] ∧ '\n' ∉ kv.1 ∧ '\n' ∉ kv.2 ∧ (str "![](") <:+: kv.1)
    (i : Nat) (L : Str) (hL : (splitOnNl text).get? i = some L)
    (hm : ¬ (str "![](") <:+: L) :
    (splitOnNl (replace_keys_with_values text dicts)).get? i = some L := by
  unfold replace_keys_with_values
  by_cases hv : (combineDicts dicts).filter (fun kv => !kv.1.isEmpty && !(pyStrip kv.1).isEmpty) = []
  · simp only [hv, if_pos rfl]
    exact hL
  · simp only [hv, if_neg hv]
    apply subst_line_preserved _ _ text i L hL hm
    intro kv hkv
    have hkv2 := mem_sortDesc _ kv hkv
    have hkv3 := (List.mem_filter.mp hkv2).1
    rcases mem_combineDicts dicts kv hkv3 with ⟨dct, hdct, hkvd⟩
    exact hk dct hdct kv hkvd

/--
C10 counterexample: with a subject identifier containing a newline, the
default-rule rewrite value spans two lines, so the marker-free line `zz`
of the input is no longer at line index 1 of the output of `adjust_links`.
This refutes the claim as stated for arbitrary identifiers.
-/
theorem C10_counterexample :
    (splitOnNl (str "![](a)\nzz")).get? 1 = some (str "zz") ∧
    isSubstr (str "![](") (str "zz") = false ∧
    (splitOnNl (adjust_links (str "![](a)\nzz") (str "Q\nW"))).get? 1 ≠ some (str "zz") := by
  refine ⟨by decide, by decide, ?_⟩
  decide

/--
C10 (amended): provided the subject identifier contains no newline
character, link normalization never touches marker-free lines: every line
of the input document that does not contain the image-reference marker
`![](` appears character-for-character unchanged at the same line index
of the output of `adjust_links` (every rewrite key contains the marker
and no key or value contains a newline, so no replacement can change a
marker-free line or shift the line layout).
-/
theorem C10_marker_free_lines_preserved (d paper_id : Str) (hid : '\n' ∉ paper_id)
    (i : Nat) (L : Str) (hL : (splitOnNl d).get? i = some L)
    (hm : ¬ (str "![](") <:+: L) :
    (splitOnNl (adjust_links d paper_id)).get? i = some L := by
  unfold adjust_links
  apply replace_line_preserved _ _ ?_ i L hL hm
  intro dct hdct kv hkv
  rcases List.mem_filterMap.mp hdct with ⟨line, hline, heq⟩
  have hpred := (List.mem_filter.mp hline).2
  have hmemsplit := (List.mem_filter.mp hline).1
  simp only [Bool.and_eq_true, Bool.not_eq_true', List.isEmpty_eq_false] at hpred
  obtain ⟨hstrip, hmarker⟩ := hpred
  simp only [ne_eq] at heq
  split at heq
  · have hdcteq : dct = [(line, get_link line paper_id)] := by
      injection heq with h
      exact h.symm
    subst hdcteq
    have hkveq : kv = (line, get_link line paper_id) := List.mem_singleton.mp hkv
    subst hkveq
    have hnl : '\n' ∉ line := splitOnNl_mem_no_nl d line hmemsplit
    refine ⟨?_, hnl, get_link_no_nl line paper_id hnl hid, (isSubstr_iff _ _).mp hmarker⟩
    intro hempty
    have hline0 : line = [] := hempty
    rw [hline0] at hstrip
    exact hstrip pyStrip_nil
  · exact absurd heq (by simp)

/-- Witness for C10 (amended) at a concrete document and identifier. -/
theorem C10_witness :
    (splitOnNl (str "hello\n![](a)\nworld")).get? 2 = some (str "world") ∧
    (splitOnNl (adjust_links (str "hello\n![](a)\nworld") (str "2405.11273"))).get? 2 =
      some (str "world") :=
  ⟨by decide,
    C10_marker_free_lines_preserved (str "hello\n![](a)\nworld") (str "2405.11273")
      (by decide) 2 (str "world") (by decide) (by decide)⟩

/--
C3 counterexample: normalization is not idempotent.  On the spec's own
scenario line `![](foo.png)` with subject id `2405.11273`, the first pass
produces the canonical form, but a second pass prefixes the base URL
again (the already-normalized check of the source compares against
`https:/arxiv.org/...` with a single slash, which never matches the
`https://` form the default rule produces).
-/
theorem C3_counterexample :
    adjust_links (adjust_links (str "![](foo.png)") (str "2405.11273")) (str "2405.11273") ≠
      adjust_links (str "![](foo.png)") (str "2405.11273") := by
  decide

/--
C3 (amended): link normalization is the identity on documents none of
whose lines contains the image-reference marker `![](`, and hence is
idempotent on such documents; it is not idempotent in general (see the
counterexample: re-running it on the output of the default rule prefixes
the canonical base path a second time).
-/
theorem C3_no_marker_identity (d paper_id : Str)
    (h : ∀ L ∈ splitOnNl d, isSubstr (str "![](") L = false) :
    adjust_links d paper_id = d ∧
    adjust_links (adjust_links d paper_id) paper_id = adjust_links d paper_id := by
  have hmain : adjust_links d paper_id = d := by
    unfold adjust_links
    have hfilter : (splitOnNl d).filter
        (fun line => !(pyStrip line).isEmpty && isSubstr (str "![](") line) = [] := by
      rw [List.filter_eq_nil_iff]
      intro L hL
      simp [h L hL]
    rw [hfilter]
    rfl
  exact ⟨hmain, by rw [hmain, hmain]⟩

/-- Witness for C3 (amended) at a concrete marker-free document. -/
theorem C3_witness :
    adjust_links (str "hello\nworld") (str "2405.11273") = str "hello\nworld" ∧
    adjust_links (adjust_links (str "hello\nworld") (str "2405.11273")) (str "2405.11273") =
      adjust_links (str "hello\nworld") (str "2405.11273") :=
  C3_no_marker_identity (str "hello\nworld") (str "2405.11273") (by decide)

theorem subst_drop_char (c : Char) : ∀ (s : Str),
    subst [([c], ([] : Str))] s = s.filter (fun x => x ≠ c) := by
  intro s
  induction s with
  | nil => rfl
  | cons a rest ih =>
    rw [subst_cons]
    by_cases hac : ([c] : Str).isPrefixOf (a :: rest) = true
    · have hca : c = a := by
        simp only [ List.isPrefixOf_iff_prefix] at hac
        obtain ⟨r, hr⟩ := hac
        have := congrArg (fun l => l.head?) hr
        simpa using this
      subst hca
      have hfind : List.find? (fun kv => List.isPrefixOf kv.1 (c :: rest)) [([c], ([] : Str))] =
          some ([c], []) := List.find?_cons_of_pos _ hac
      rw [hfind]
      simp only [List.drop_zero, List.filter_cons]
      simp [ih]
    · have hfind : List.find? (fun kv => List.isPrefixOf kv.1 (a :: rest)) [([c], ([] : Str))] =
          none := List.find?_cons_of_neg _ hac
      rw [hfind]
      have hne : a ≠ c := by
        intro h
        subst h
        apply hac
        simp only [ List.isPrefixOf_iff_prefix]
        exact ⟨rest, rfl⟩
      simp [List.filter_cons, hne, Ne.symm hne, ih]

theorem subst_single_head (k v t : Str) (kh : Char) (ktail : Str) (hk : k = kh :: ktail) :
    subst [(k, v)] (k ++ t) = v ++ subst [(k, v)] t := by
  subst hk
  rw [List.cons_append, subst_cons]
  have hpred : ((kh :: ktail, v) : Str × Str).1.isPrefixOf (kh :: (ktail ++ t)) = true := by
    simp only [ List.isPrefixOf_iff_prefix]
    exact ⟨t, by simp⟩
  have hfind : List.find? (fun kv => List.isPrefixOf kv.1 (kh :: (ktail ++ t)))
      [(kh :: ktail, v)] = some (kh :: ktail, v) := List.find?_cons_of_pos _ hpred
  rw [hfind]
  simp only
  rw [List.drop_left]

theorem get_link_bare_reference (p paper_id : Str)
    (hpl : '(' ∉ p) (hpr : ')' ∉ p) (hid : ')' ∉ paper_id)
    (h1 : isSubstr (str "ar5iv.labs.arxiv.org") (str "![](" ++ p ++ str ")") = false)
    (h2 : isSubstr (str "https:/arxiv.org/html/" ++ paper_id ++ str "/")
      (str "![](" ++ p ++ str ")") = false)
    (h3 : isSubstr (str "(arxiv.org") (str "![](" ++ p ++ str ")") = false) :
    get_link (str "![](" ++ p ++ str ")") paper_id =
      str "![](" ++ ((str "https://arxiv.org/html/" ++ paper_id ++ str "/") ++ p) ++ str ")" := by
  have hL : str "![](" ++ p ++ str ")" = str "![](" ++ (p ++ str ")") := by
    simp [List.append_assoc]
  have hcons : str "![](" ++ (p ++ str ")") = '!' :: (str "[](" ++ (p ++ str ")")) := rfl
  have hstrip : pyStrip (str "![](" ++ (p ++ str ")")) ≠ [] :=
    pyStrip_ne_nil_of_head _ '!' (str "[](" ++ (p ++ str ")")) hcons (by decide)
  have h1' : ¬ isSubstr (str "ar5iv.labs.arxiv.org") (str "![](" ++ (p ++ str ")")) = true := by
    rw [← hL, h1]; decide
  have h2' : ¬ isSubstr (str "https:/arxiv.org/html/" ++ paper_id ++ str "/")
      (str "![](" ++ (p ++ str ")")) = true := by
    rw [← hL, h2]; decide
  have h3' : ¬ isSubstr (str "(arxiv.org") (str "![](" ++ (p ++ str ")")) = true := by
    rw [← hL, h3]; decide
  have hnomatch : subst [(str "![](", str "https://arxiv.org/html/" ++ paper_id ++ str "/")]
      (p ++ str ")") = p ++ str ")" := by
    apply subst_of_no_match
    intro kv hkv hinf
    have hkv2 : kv = (str "![](", str "https://arxiv.org/html/" ++ paper_id ++ str "/") :=
      List.mem_singleton.mp hkv
    subst hkv2
    have hpm : '(' ∈ (str "![](" : Str) := by decide
    have hparen : '(' ∈ p ++ str ")" := hinf.subset hpm
    rcases List.mem_append.mp hparen with h | h
    · exact hpl h
    · have : '(' ∈ (str ")" : Str) := h
      revert this; decide
  have hinner : strReplace (str "![](" ++ (p ++ str ")")) (str "![](")
      (str "https://arxiv.org/html/" ++ paper_id ++ str "/") =
      (str "https://arxiv.org/html/" ++ paper_id ++ str "/") ++ (p ++ str ")") := by
    show subst [(str "![](", _)] (str "![](" ++ (p ++ str ")")) = _
    rw [subst_single_head (str "![](") _ (p ++ str ")") '!' (str "[](") rfl, hnomatch]
  have hfpid : paper_id.filter (fun x => x ≠ ')') = paper_id := by
    rw [List.filter_eq_self]
    intro a ha
    simp only [decide_eq_true_eq]
    intro heq; rw [heq] at ha; exact hid ha
  have hfp : p.filter (fun x => x ≠ ')') = p := by
    rw [List.filter_eq_self]
    intro a ha
    simp only [decide_eq_true_eq]
    intro heq; rw [heq] at ha; exact hpr ha
  have hflit : List.filter (fun x => decide (x ≠ ')')) (str "https://arxiv.org/html/") =
      str "https://arxiv.org/html/" := by decide
  have hfsl : List.filter (fun x => decide (x ≠ ')')) (str "/") = str "/" := by decide
  have hfcl : List.filter (fun x => decide (x ≠ ')')) (str ")") = [] := by decide
  have houter : strReplace
      ((str "https://arxiv.org/html/" ++ paper_id ++ str "/") ++ (p ++ str ")"))
      (str ")") [] = (str "https://arxiv.org/html/" ++ paper_id ++ str "/") ++ p := by
    show subst [([')'], ([] : Str))] _ = _
    rw [subst_drop_char ')' _]
    simp only [List.filter_append, hfpid, hfp, hflit, hfsl, hfcl, List.append_nil]
  rw [hL]
  unfold get_link
  rw [if_neg hstrip, if_neg h1', if_neg h2', if_neg h3', hinner, houter]

theorem replace_single_full (L R : Str) (hstrip : pyStrip L ≠ []) (hne : L ≠ R)
    (kh : Char) (ktail : Str) (hk : L = kh :: ktail) :
    replace_keys_with_values L [[(L, R)]] = R := by
  have hLne : L ≠ [] := by rw [hk]; simp
  have hfilter : (combineDicts [[(L, R)]]).filter
      (fun kv => !kv.1.isEmpty && !(pyStrip kv.1).isEmpty) = [(L, R)] := by
    have hcomb : combineDicts [[(L, R)]] = [(L, R)] := rfl
    rw [hcomb, List.filter_eq_self]
    intro a ha
    rw [List.mem_singleton] at ha
    subst ha
    simp [List.isEmpty_eq_false, hLne, hstrip]
  show (if (combineDicts [[(L, R)]]).filter
      (fun kv => !kv.1.isEmpty && !(pyStrip kv.1).isEmpty) = [] then L
    else subst (sortDesc ((combineDicts [[(L, R)]]).filter
      (fun kv => !kv.1.isEmpty && !(pyStrip kv.1).isEmpty))) L) = R
  rw [hfilter, if_neg (by simp)]
  have hsort : sortDesc [(L, R)] = [(L, R)] := rfl
  rw [hsort]
  have hstep := subst_single_head L R [] kh ktail hk
  rw [List.append_nil] at hstep
  rw [hstep, subst_nil, List.append_nil]

theorem adjust_links_single_line (L paper_id : Str) (hnl : '\n' ∉ L)
    (hstripL : pyStrip L ≠ []) (hmark : isSubstr (str "![](") L = true)
    (hstripR : pyStrip (get_link L paper_id) ≠ []) (hne : L ≠ get_link L paper_id)
    (kh : Char) (ktail : Str) (hk : L = kh :: ktail) :
    adjust_links L paper_id = get_link L paper_id := by
  have hsplit : splitOnNl L = [L] := splitOnNl_nl_free L hnl
  have hfilterLines : (splitOnNl L).filter
      (fun line => !(pyStrip line).isEmpty && isSubstr (str "![](") line) = [L] := by
    rw [hsplit, List.filter_eq_self]
    intro a ha
    rw [List.mem_singleton] at ha
    subst ha
    simp [List.isEmpty_eq_false, hstripL, hmark]
  show replace_keys_with_values L (((splitOnNl L).filter
      (fun line => !(pyStrip line).isEmpty && isSubstr (str "![](") line)).filterMap
    (fun line =>
      if (!(pyStrip line).isEmpty && !(pyStrip (get_link line paper_id)).isEmpty &&
          decide (line ≠ get_link line paper_id)) = true then
        some [(line, get_link line paper_id)]
      else none)) = get_link L paper_id
  rw [hfilterLines]
  have hcond : (!(pyStrip L).isEmpty && !(pyStrip (get_link L paper_id)).isEmpty &&
      decide (L ≠ get_link L paper_id)) = true := by
    simp [List.isEmpty_eq_false, hstripL, hstripR, hne]
  have hfm : List.filterMap
      (fun line =>
        if (!(pyStrip line).isEmpty && !(pyStrip (get_link line paper_id)).isEmpty &&
            decide (line ≠ get_link line paper_id)) = true then
          some [(line, get_link line paper_id)]
        else none) [L] = [[(L, get_link L paper_id)]] := by
    rw [List.filterMap_cons, if_pos hcond, List.filterMap_nil]
  rw [hfm]
  exact replace_single_full L (get_link L paper_id) hstripL hne kh ktail hk

/--
C4 counterexample: on the line `a (b) ![](x.png) c` the rewrite does not
preserve the characters around the reference: the whole line is wrapped
in `![](` ... `)` and the closing parenthesis of `(b)` is deleted, so the
substring `(b)` no longer occurs in the output of `adjust_links`.
-/
theorem C4_counterexample :
    adjust_links (str "a (b) ![](x.png) c") (str "1234.5678") =
      str "![](a (b https://arxiv.org/html/1234.5678/x.png c)" ∧
    isSubstr (str "(b)") (str "a (b) ![](x.png) c") = true ∧
    isSubstr (str "(b)") (adjust_links (str "a (b) ![](x.png) c") (str "1234.5678")) = false := by
  refine ⟨by decide, by decide, ?_⟩
  decide

/--
C4 (amended): the per-line rewrite is only correct for lines that consist
of nothing but the bare reference: for a line that is exactly
`![](` ++ p ++ `)` — with p free of parentheses and newlines, the subject
identifier free of `)`, and none of the three special-domain rules
applicable — `adjust_links` rewrites the line to exactly
`![](https://arxiv.org/html/<id>/` ++ p ++ `)`, the canonical scoped
absolute form, preserving p.  Lines with surrounding text are instead
wrapped whole and lose their `)` characters (see the counterexample).
-/
theorem C4_bare_line_normalization (p paper_id : Str)
    (hpl : '(' ∉ p) (hpr : ')' ∉ p) (hpn : '\n' ∉ p) (hid : ')' ∉ paper_id)
    (h1 : isSubstr (str "ar5iv.labs.arxiv.org") (str "![](" ++ p ++ str ")") = false)
    (h2 : isSubstr (str "https:/arxiv.org/html/" ++ paper_id ++ str "/")
      (str "![](" ++ p ++ str ")") = false)
    (h3 : isSubstr (str "(arxiv.org") (str "![](" ++ p ++ str ")") = false) :
    adjust_links (str "![](" ++ p ++ str ")") paper_id =
      str "![](" ++ ((str "https://arxiv.org/html/" ++ paper_id ++ str "/") ++ p) ++ str ")" := by
  have hGL := get_link_bare_reference p paper_id hpl hpr hid h1 h2 h3
  have hconsL : str "![](" ++ p ++ str ")" = '!' :: ((str "[](" ++ p) ++ str ")") := rfl
  have hnlL : '\n' ∉ str "![](" ++ p ++ str ")" := by
    intro hm
    rcases List.mem_append.mp hm with hm1 | hm1
    · rcases List.mem_append.mp hm1 with hm2 | hm2
      · revert hm2; decide
      · exact hpn hm2
    · revert hm1; decide
  have hstripL : pyStrip (str "![](" ++ p ++ str ")") ≠ [] :=
    pyStrip_ne_nil_of_head _ '!' _ hconsL (by decide)
  have hmark : isSubstr (str "![](") (str "![](" ++ p ++ str ")") = true := by
    rw [isSubstr_iff]
    exact ⟨[], p ++ str ")", by simp⟩
  have hconsR : str "![](" ++ ((str "https://arxiv.org/html/" ++ paper_id ++ str "/") ++ p) ++
      str ")" = '!' :: ((str "[](" ++
        ((str "https://arxiv.org/html/" ++ paper_id ++ str "/") ++ p)) ++ str ")") := rfl
  have hstripR : pyStrip (get_link (str "![](" ++ p ++ str ")") paper_id) ≠ [] := by
    rw [hGL]
    exact pyStrip_ne_nil_of_head _ '!' _ hconsR (by decide)
  have hneLR : str "![](" ++ p ++ str ")" ≠ get_link (str "![](" ++ p ++ str ")") paper_id := by
    rw [hGL]
    intro hEq
    have hlen := congrArg List.length hEq
    simp only [List.length_append] at hlen
    have h23 : (str "https://arxiv.org/html/").length = 23 := by decide
    have hsl : (str "/").length = 1 := by decide
    omega
  rw [adjust_links_single_line (str "![](" ++ p ++ str ")") paper_id hnlL hstripL hmark
    hstripR hneLR '!' ((str "[](" ++ p) ++ str ")") hconsL, hGL]

/-- Witness for C4 (amended) on the spec's own scenario `![](foo.png)`. -/
theorem C4_witness :
    adjust_links (str "![](foo.png)") (str "2405.11273") =
      str "![](" ++ ((str "https://arxiv.org/html/" ++ str "2405.11273" ++ str "/") ++
        str "foo.png") ++ str ")" :=
  C4_bare_line_normalization (str "foo.png") (str "2405.11273") (by decide) (by decide)
    (by decide) (by decide) (by decide) (by decide) (by decide)

theorem subst_head_match (keys : List (Str × Str)) (k v t : Str) (kh : Char) (ktail : Str)
    (hk : k = kh :: ktail)
    (hfind : keys.find? (fun kv => kv.1.isPrefixOf (k ++ t)) = some (k, v)) :
    subst keys (k ++ t) = v ++ subst keys t := by
  subst hk
  rw [List.cons_append, subst_cons]
  rw [show keys.find? (fun kv => kv.1.isPrefixOf (kh :: (ktail ++ t))) =
    some (kh :: ktail, v) from hfind]
  simp only
  rw [List.drop_left]

/--
C6 counterexample: with the shorter key `ab` and the longer key `bab`
(`ab` is a proper substring of `bab`, and both occur in `abab`), the
left-to-right scan matches `ab` at position 0, consuming the first
character of the only occurrence of `bab`; the longer key's replacement
`L` is never applied, refuting "applied intact wherever the longer key
occurs".  Longest-first ordering only arbitrates matches that start at
the same scan position.
-/
theorem C6_counterexample :
    replace_keys_with_values (str "abab") [[(str "ab", str "S")], [(str "bab", str "L")]] =
      str "SS" ∧
    isSubstr (str "bab") (str "abab") = true ∧
    isSubstr (str "ab") (str "bab") = true ∧
    isSubstr (str "L") (str "SS") = false := by
  refine ⟨by decide, by decide, by decide, ?_⟩
  decide

/--
C6 (amended): keys are matched longest first at each scan position: when
one mapping key is a proper substring of another and the document reaches
an occurrence of the longer key at the scan position, the longer key's
replacement is applied intact there (in particular for a document
beginning with the longer key); an occurrence of the longer key that
overlaps an earlier match can still be consumed (see the counterexample).
And when the mapping contains no key with non-whitespace content, the
document is returned unchanged.
-/
theorem C6_longest_first :
    (∀ (ks kl vs vl t : Str), pyStrip ks ≠ [] → pyStrip kl ≠ [] → ks.length < kl.length →
      ks <:+: kl →
      replace_keys_with_values (kl ++ t) [[(ks, vs)], [(kl, vl)]] =
        vl ++ subst [(kl, vl), (ks, vs)] t) ∧
    (∀ (text : Str) (ds : List (List (Str × Str))),
      (∀ d ∈ ds, ∀ kv ∈ d, pyStrip kv.1 = []) →
      replace_keys_with_values text ds = text) := by
  constructor
  · intro ks kl vs vl t hks hkl hlen _
    have hksne : ks ≠ [] := by
      intro h
      rw [h] at hks
      exact hks pyStrip_nil
    have hklne : kl ≠ [] := by
      intro h
      rw [h] at hkl
      exact hkl pyStrip_nil
    have hkne : ¬ (ks = kl) := by
      intro h
      rw [h] at hlen
      omega
    have hcomb : combineDicts [[(ks, vs)], [(kl, vl)]] = [(ks, vs), (kl, vl)] := by
      show dictInsert (dictInsert [] ks vs) kl vl = [(ks, vs), (kl, vl)]
      have h1 : dictInsert ([] : List (Str × Str)) ks vs = [(ks, vs)] := rfl
      rw [h1]
      unfold dictInsert
      rw [if_neg (by simp [hkne])]
      rfl
    have hfilter : ([(ks, vs), (kl, vl)] : List (Str × Str)).filter
        (fun kv => !kv.1.isEmpty && !(pyStrip kv.1).isEmpty) = [(ks, vs), (kl, vl)] := by
      rw [List.filter_eq_self]
      intro a ha
      rcases List.mem_cons.mp ha with rfl | ha
      · simp [List.isEmpty_eq_false, hksne, hks]
      · rw [List.mem_singleton] at ha
        subst ha
        simp [List.isEmpty_eq_false, hklne, hkl]
    have hsort : sortDesc [(ks, vs), (kl, vl)] = [(kl, vl), (ks, vs)] := by
      show insertDesc (ks, vs) (insertDesc (kl, vl) []) = _
      simp only [insertDesc]
      rw [if_pos hlen]
    show (if (combineDicts [[(ks, vs)], [(kl, vl)]]).filter
        (fun kv => !kv.1.isEmpty && !(pyStrip kv.1).isEmpty) = [] then kl ++ t
      else subst (sortDesc ((combineDicts [[(ks, vs)], [(kl, vl)]]).filter
        (fun kv => !kv.1.isEmpty && !(pyStrip kv.1).isEmpty))) (kl ++ t)) = _
    rw [hcomb, hfilter, if_neg (by simp), hsort]
    obtain ⟨kh, ktail, hk⟩ : ∃ kh ktail, kl = kh :: ktail := by
      cases kl with
      | nil => exact absurd rfl hklne
      | cons a b => exact ⟨a, b, rfl⟩
    apply subst_head_match _ kl vl t kh ktail hk
    apply List.find?_cons_of_pos
    show kl.isPrefixOf (kl ++ t) = true
    simp only [ List.isPrefixOf_iff_prefix]
    exact List.prefix_append kl t
  · intro text ds h
    have hfilter : (combineDicts ds).filter
        (fun kv => !kv.1.isEmpty && !(pyStrip kv.1).isEmpty) = [] := by
      rw [List.filter_eq_nil_iff]
      intro kv hkv
      rcases mem_combineDicts ds kv hkv with ⟨d, hd, hkvd⟩
      simp [h d hd kv hkvd]
    show (if (combineDicts ds).filter
        (fun kv => !kv.1.isEmpty && !(pyStrip kv.1).isEmpty) = [] then text
      else subst (sortDesc ((combineDicts ds).filter
        (fun kv => !kv.1.isEmpty && !(pyStrip kv.1).isEmpty))) text) = text
    rw [hfilter, if_pos rfl]

/-- Witness for C6 (amended) at concrete keys and documents. -/
theorem C6_witness :
    replace_keys_with_values (str "abc" ++ str "!") [[(str "bc", str "S")], [(str "abc", str "L")]] =
      str "L" ++ subst [(str "abc", str "L"), (str "bc", str "S")] (str "!") ∧
    replace_keys_with_values (str "doc") [[(str "  ", str "Z")]] = str "doc" :=
  ⟨C6_longest_first.1 (str "bc") (str "abc") (str "S") (str "L") (str "!")
      (by decide) (by decide) (by decide) (by decide),
    C6_longest_first.2 (str "doc") [[(str "  ", str "Z")]] (by decide)⟩

theorem validate_mismatch (paper_id : Str) (values : ArxflixScript)
    (h1 : paper_id ≠ str "paper_id") (h2 : values.paper_id ≠ paper_id) :
    validate_script_structure paper_id values =
      .valueError ((if values.components = []
          then [str "Script must contain at least one component"] else []) ++
        [paperIdErrMsg paper_id] ++ componentTypeErrors values.components) := by
  unfold validate_script_structure
  rw [if_pos ⟨h1, h2⟩, if_neg (by simp)]

theorem validate_else (paper_id : Str) (values : ArxflixScript)
    (h : ¬(paper_id ≠ str "paper_id" ∧ values.paper_id ≠ paper_id)) :
    validate_script_structure paper_id values =
      match pySortByPosition values.components with
      | [] => .indexError
      | first :: rest =>
        if ((if values.components = []
              then [str "Script must contain at least one component"] else []) ++
            (if (pySortByPosition values.components).map (fun c => c.position) ≠
                rangeInt (pySortByPosition values.components).length then
              [str "Component positions must be consecutive integers starting from 0"]
            else []) ++
            (if pyStrip first.component_type ≠ str "Headline" then
              [str "Script must start with a Headline component"] else []) ++
            adjacentErrors (first :: rest) ++ componentTypeErrors (first :: rest)) = [] then
          .ok { values with components := first :: rest }
        else
          .valueError ((if values.components = []
              then [str "Script must contain at least one component"] else []) ++
            (if (pySortByPosition values.components).map (fun c => c.position) ≠
                rangeInt (pySortByPosition values.components).length then
              [str "Component positions must be consecutive integers starting from 0"]
            else []) ++
            (if pyStrip first.component_type ≠ str "Headline" then
              [str "Script must start with a Headline component"] else []) ++
            adjacentErrors (first :: rest) ++ componentTypeErrors (first :: rest)) := by
  unfold validate_script_structure
  rw [if_neg h]

theorem errorsOf_validate_else (paper_id : Str) (values : ArxflixScript)
    (h : ¬(paper_id ≠ str "paper_id" ∧ values.paper_id ≠ paper_id)) :
    errorsOf (validate_script_structure paper_id values) =
      match pySortByPosition values.components with
      | [] => []
      | first :: rest =>
        (if values.components = []
          then [str "Script must contain at least one component"] else []) ++
        (if (first :: rest).map (fun c => c.position) ≠ rangeInt (first :: rest).length then
          [str "Component positions must be consecutive integers starting from 0"]
        else []) ++
        (if pyStrip first.component_type ≠ str "Headline" then
          [str "Script must start with a Headline component"] else []) ++
        adjacentErrors (first :: rest) ++ componentTypeErrors (first :: rest) := by
  have herrs : ∀ (s : ArxflixScript) (E : List Str),
      errorsOf (if E = [] then .ok s else .valueError E) = E := by
    intro s E
    by_cases he : E = []
    · rw [if_pos he, he]; rfl
    · rw [if_neg he]; rfl
  rw [validate_else paper_id values h]
  cases hs : pySortByPosition values.components with
  | nil => rfl
  | cons f r =>
    simp only
    exact herrs _ _

/--
C2: code bug.  When the components list is empty and the expected-id
check passes (matching id or sentinel), the validator reaches
`sorted_components[0]` and raises an uncaught `IndexError` instead of
failing with the collected invariant-1 violation: the positions check
`[] == range(0)` succeeds on the empty list, so execution falls through
to the first-component indexing.  The collected invariant-1 message is
lost.  This evaluates the model at two such failing inputs.
-/
theorem C2_empty_components_index_error :
    validate_script_structure (str "1234.5678")
      { title := str "T", paper_id := str "1234.5678",
        target_duration_minutes := 5, components := [] } = ValidationOutcome.indexError ∧
    validate_script_structure (str "paper_id")
      { title := str "T", paper_id := str "9999.0000",
        target_duration_minutes := 5, components := [] } = ValidationOutcome.indexError := by
  constructor <;> decide

/--
C9: with `from_pdf = true`, `process_script` skips `adjust_links`
entirely (the backend receives the raw document) and replaces the
caller-supplied identifier by the sentinel `"paper_id"`, so the
no-link system prompt is always selected; and under the sentinel
the validator's outcome does not depend on the candidate's
`paper_id` field (the subject-identifier match is never enforced).
-/
theorem C9_from_pdf_uses_sentinel :
    (∀ (paper_markdown paper_id : Str),
      process_script_request paper_markdown paper_id true =
        { system_prompt := PromptVariant.noLinks, document := paper_markdown,
          paper_id := str "paper_id" }) ∧
    (∀ (v : ArxflixScript) (pid : Str),
      errorsOf (validate_script_structure (str "paper_id") v) =
        errorsOf (validate_script_structure (str "paper_id") { v with paper_id := pid })) := by
  constructor
  · intro d pid
    rfl
  · intro v pid
    rw [errorsOf_validate_else _ _ (by simp), errorsOf_validate_else _ _ (by simp)]

/--
C1 counterexample: a candidate whose subject identifier mismatches the
expected one and whose only (hence first) component is a `Text` gets back
only the identifier violation: the first-component-Headline invariant is
not checked or reported (the ordering checks live in the `else` branch of
the identifier check), refuting "still has its ordering,
first-component-Headline, and adjacent-Headline invariants checked".
-/
theorem C1_counterexample :
    errorsOf (validate_script_structure (str "1111.2222")
      { title := str "T", paper_id := str "9999.0000", target_duration_minutes := 5,
        components := [{ component_type := str "Text", content := str "c", position := 0 }] }) =
      [paperIdErrMsg (str "1111.2222")] ∧
    str "Script must start with a Headline component" ∉
      errorsOf (validate_script_structure (str "1111.2222")
        { title := str "T", paper_id := str "9999.0000", target_duration_minutes := 5,
          components := [{ component_type := str "Text", content := str "c", position := 0 }] }) := by
  constructor <;> decide

/--
C1 (amended): on an identifier mismatch the validator still collects
every violation among the invariants it evaluates — non-emptiness
(invariant 1), the identifier (invariant 5) and the legal-kind check
(invariant 6) — rather than stopping at the first; but the ordering
invariants 2-4 (consecutive positions, first-component Headline,
adjacent Headlines) are in the `else` branch of the identifier check and
are not evaluated at all in this case.
-/
theorem C1_mismatch_reports (e : Str) (v : ArxflixScript)
    (h1 : e ≠ str "paper_id") (h2 : v.paper_id ≠ e) :
    errorsOf (validate_script_structure e v) =
      (if v.components = [] then [str "Script must contain at least one component"] else []) ++
      [paperIdErrMsg e] ++ componentTypeErrors v.components := by
  rw [validate_mismatch e v h1 h2]
  rfl

/-- Witness for C1 (amended): a candidate with a wrong id and an illegal
kind collects the invariant-5 and invariant-6 violations together. -/
theorem C1_witness :
    errorsOf (validate_script_structure (str "1111.2222")
      { title := str "T", paper_id := str "9999.0000", target_duration_minutes := 5,
        components := [{ component_type := str "Fig", content := str "c", position := 0 }] }) =
      [paperIdErrMsg (str "1111.2222"), componentTypeErrMsg (str "Fig")] :=
  C1_mismatch_reports (str "1111.2222")
    { title := str "T", paper_id := str "9999.0000", target_duration_minutes := 5,
      components := [{ component_type := str "Fig", content := str "c", position := 0 }] }
    (by decide) (by decide)

theorem paperIdErrMsg_take3 (e : Str) : (paperIdErrMsg e).take 3 = str "The" := by
  unfold paperIdErrMsg
  have h16 : (str "The paper id is ").length = 16 := by decide
  rw [List.take_append_of_le_length (by simp only [List.length_append, h16]; omega),
    List.take_append_of_le_length (by rw [h16]; omega)]
  decide

theorem paperIdErrMsg_rev2 (e : Str) : (paperIdErrMsg e).reverse.take 2 = str "er" := by
  unfold paperIdErrMsg
  rw [List.reverse_append, List.take_append_of_le_length (by decide)]
  decide

theorem paperIdErrMsg_ne_empty_msg (e : Str) :
    paperIdErrMsg e ≠ str "Script must contain at least one component" := by
  intro h
  have h3 := congrArg (fun l => List.take 3 l) h
  simp only at h3
  rw [paperIdErrMsg_take3] at h3
  revert h3
  decide

theorem paperIdErrMsg_ne_positions_msg (e : Str) :
    paperIdErrMsg e ≠ str "Component positions must be consecutive integers starting from 0" := by
  intro h
  have h3 := congrArg (fun l => List.take 3 l) h
  simp only at h3
  rw [paperIdErrMsg_take3] at h3
  revert h3
  decide

theorem paperIdErrMsg_ne_headline_msg (e : Str) :
    paperIdErrMsg e ≠ str "Script must start with a Headline component" := by
  intro h
  have h3 := congrArg (fun l => List.take 3 l) h
  simp only at h3
  rw [paperIdErrMsg_take3] at h3
  revert h3
  decide

theorem paperIdErrMsg_ne_consecutive_msg (e t : Str) :
    paperIdErrMsg e ≠ consecutiveErrMsg t := by
  intro h
  have h3 := congrArg (fun l => List.take 3 l) h
  simp only at h3
  rw [paperIdErrMsg_take3] at h3
  have hc : (consecutiveErrMsg t).take 3 = str "Con" := by
    unfold consecutiveErrMsg
    have h12 : (str "Consecutive ").length = 12 := by decide
    rw [List.take_append_of_le_length (by simp only [List.length_append, h12]; omega),
      List.take_append_of_le_length (by rw [h12]; omega)]
    decide
  rw [hc] at h3
  revert h3
  decide

theorem paperIdErrMsg_ne_type_msg (e t : Str) :
    paperIdErrMsg e ≠ componentTypeErrMsg t := by
  intro h
  have h2 := congrArg (fun l => List.take 2 l.reverse) h
  simp only at h2
  rw [paperIdErrMsg_rev2] at h2
  have hct : (componentTypeErrMsg t).reverse.take 2 = str "en" := by
    unfold componentTypeErrMsg
    rw [List.reverse_append, List.take_append_of_le_length (by decide)]
    decide
  rw [hct] at h2
  revert h2
  decide

theorem mem_adjacentErrors : ∀ (l : List ScriptComponent) (x : Str),
    x ∈ adjacentErrors l → ∃ t, x = consecutiveErrMsg t := by
  intro l
  induction l with
  | nil => intro x hx; simp [adjacentErrors] at hx
  | cons a rest ih =>
    intro x hx
    cases rest with
    | nil => simp [adjacentErrors] at hx
    | cons b r =>
      simp only [adjacentErrors, List.mem_append] at hx
      rcases hx with hx | hx
      · by_cases hc : pyStrip b.component_type = pyStrip a.component_type ∧
            pyStrip b.component_type ≠ str "Text"
        · rw [if_pos hc] at hx
          exact ⟨pyStrip b.component_type, List.mem_singleton.mp hx⟩
        · rw [if_neg hc] at hx
          simp at hx
      · exact ih x hx

theorem mem_componentTypeErrors : ∀ (l : List ScriptComponent) (x : Str),
    x ∈ componentTypeErrors l → ∃ t, x = componentTypeErrMsg t := by
  intro l
  induction l with
  | nil => intro x hx; simp [componentTypeErrors] at hx
  | cons a rest ih =>
    intro x hx
    simp only [componentTypeErrors, List.mem_append] at hx
    rcases hx with hx | hx
    · by_cases hc : pyStrip a.component_type ≠ str "Text" ∧
          pyStrip a.component_type ≠ str "Headline"
      · rw [if_pos hc] at hx
        exact ⟨pyStrip a.component_type, List.mem_singleton.mp hx⟩
      · rw [if_neg hc] at hx
        simp at hx
    · exact ih x hx

/--
C7: the identifier violation `paperIdErrMsg e` (the message
`The paper id is <e>, you wrote a wrong one, correct it everywhere`,
which states the expected identifier and instructs correcting it
everywhere) is reported exactly when the expected identifier is not the
sentinel `"paper_id"` and the candidate's identifier differs from it;
under the sentinel every candidate identifier is accepted (no such
violation is ever emitted).
-/
theorem C7_sentinel_id_check (e : Str) (v : ArxflixScript) :
    paperIdErrMsg e ∈ errorsOf (validate_script_structure e v) ↔
      (e ≠ str "paper_id" ∧ v.paper_id ≠ e) := by
  have hif : ∀ (c : Prop) (inst : Decidable c) (a x : Str),
      x ∈ (if c then [a] else []) → x = a := by
    intro c inst a x hx
    split at hx
    · simpa using hx
    · simp at hx
  constructor
  · intro hmem
    by_cases hc : e ≠ str "paper_id" ∧ v.paper_id ≠ e
    · exact hc
    · exfalso
      rw [errorsOf_validate_else e v hc] at hmem
      cases hs : pySortByPosition v.components with
      | nil => rw [hs] at hmem; simp at hmem
      | cons f r =>
        rw [hs] at hmem
        simp only [List.mem_append] at hmem
        rcases hmem with ((((hmem | hmem) | hmem) | hmem) | hmem)
        · exact paperIdErrMsg_ne_empty_msg e (hif _ _ _ _ hmem)
        · exact paperIdErrMsg_ne_positions_msg e (hif _ _ _ _ hmem)
        · exact paperIdErrMsg_ne_headline_msg e (hif _ _ _ _ hmem)
        · obtain ⟨t, ht⟩ := mem_adjacentErrors (f :: r) _ hmem
          exact paperIdErrMsg_ne_consecutive_msg e t ht
        · obtain ⟨t, ht⟩ := mem_componentTypeErrors (f :: r) _ hmem
          exact paperIdErrMsg_ne_type_msg e t ht
  · intro ⟨h1, h2⟩
    rw [validate_mismatch e v h1 h2]
    simp [errorsOf]

/-- Witness for C7 at concrete identifiers: a mismatch emits the message,
and under the sentinel no such message is emitted. -/
theorem C7_witness :
    paperIdErrMsg (str "1111.2222") ∈ errorsOf (validate_script_structure (str "1111.2222")
      { title := str "T", paper_id := str "9999.0000", target_duration_minutes := 5,
        components := [{ component_type := str "Text", content := str "c", position := 0 }] }) ∧
    paperIdErrMsg (str "paper_id") ∉ errorsOf (validate_script_structure (str "paper_id")
      { title := str "T", paper_id := str "9999.0000", target_duration_minutes := 5,
        components := [{ component_type := str "Text", content := str "c", position := 0 }] }) :=
  ⟨(C7_sentinel_id_check (str "1111.2222") _).mpr ⟨by decide, by decide⟩,
    fun hmem => by
      have := (C7_sentinel_id_check (str "paper_id") _).mp hmem
      exact this.1 rfl⟩

theorem length_insertByPos (x : ScriptComponent) : ∀ (l : List ScriptComponent),
    (insertByPos x l).length = l.length + 1 := by
  intro l
  induction l with
  | nil => rfl
  | cons y ys ih =>
    simp only [insertByPos]
    split
    · simp [ih]
    · simp

theorem length_pySortByPosition : ∀ (l : List ScriptComponent),
    (pySortByPosition l).length = l.length := by
  intro l
  induction l with
  | nil => rfl
  | cons x xs ih =>
    simp only [pySortByPosition]
    rw [length_insertByPos, ih]
    rfl

theorem mem_insertByPos (x : ScriptComponent) : ∀ (l : List ScriptComponent)
    (y : ScriptComponent), y ∈ insertByPos x l → y = x ∨ y ∈ l := by
  intro l
  induction l with
  | nil => intro y hy; simp [insertByPos] at hy; simp [hy]
  | cons z zs ih =>
    intro y hy
    simp only [insertByPos] at hy
    split at hy
    · rcases List.mem_cons.mp hy with rfl | hy
      · exact Or.inr (by simp)
      · rcases ih y hy with h | h
        · exact Or.inl h
        · exact Or.inr (by simp [h])
    · rcases List.mem_cons.mp hy with rfl | hy
      · exact Or.inl rfl
      · exact Or.inr hy

theorem mem_pySortByPosition : ∀ (l : List ScriptComponent) (y : ScriptComponent),
    y ∈ pySortByPosition l → y ∈ l := by
  intro l
  induction l with
  | nil => intro y hy; simp [pySortByPosition] at hy
  | cons x xs ih =>
    intro y hy
    simp only [pySortByPosition] at hy
    rcases mem_insertByPos x (pySortByPosition xs) y hy with rfl | hy
    · simp
    · exact List.mem_cons_of_mem x (ih y hy)

theorem componentTypeErrors_eq_nil : ∀ (l : List ScriptComponent),
    (∀ c ∈ l, pyStrip c.component_type = str "Text" ∨
      pyStrip c.component_type = str "Headline") →
    componentTypeErrors l = [] := by
  intro l
  induction l with
  | nil => intro _; rfl
  | cons a rest ih =>
    intro h
    simp only [componentTypeErrors]
    rw [if_neg, ih (fun c hc => h c (List.mem_cons_of_mem a hc))]
    · rfl
    · intro ⟨hT, hH⟩
      rcases h a (by simp) with h' | h'
      · exact hT h'
      · exact hH h'

theorem adjacentErrors_eq_nil : ∀ (l : List ScriptComponent),
    List.Chain' (fun a b => ¬(pyStrip a.component_type = str "Headline" ∧
      pyStrip b.component_type = str "Headline")) l →
    (∀ c ∈ l, pyStrip c.component_type = str "Text" ∨
      pyStrip c.component_type = str "Headline") →
    adjacentErrors l = [] := by
  intro l
  induction l with
  | nil => intro _ _; rfl
  | cons a rest ih =>
    intro hchain hkinds
    cases rest with
    | nil => rfl
    | cons b r =>
      rw [List.chain'_cons] at hchain
      obtain ⟨hab, hrest⟩ := hchain
      show (if pyStrip b.component_type = pyStrip a.component_type ∧
          pyStrip b.component_type ≠ str "Text" then
        [consecutiveErrMsg (pyStrip b.component_type)] else []) ++ adjacentErrors (b :: r) = []
      rw [if_neg, ih hrest (fun c hc => hkinds c (List.mem_cons_of_mem a hc))]
      · rfl
      · intro ⟨heq, hneT⟩
        rcases hkinds b (by simp) with hbT | hbH
        · exact hneT hbT
        · rcases hkinds a (by simp) with haT | haH
          · rw [heq, haT] at hbH
            revert hbH
            decide
          · exact hab ⟨haH, hbH⟩

/--
C5: a candidate whose sorted positions are exactly `0..n-1`, whose first
sorted component is a Headline, with no two adjacent sorted Headlines,
whose kinds are all legal (the data model's two values) and whose subject
identifier matches the expected one is accepted: validation returns the
script with its components sorted ascending by position and nothing else
changed (title, identifier and duration are passed through by the record
update).
-/
theorem C5_valid_scripts_accepted (e : Str) (v : ArxflixScript)
    (hn : v.components ≠ []) (hpid : v.paper_id = e)
    (hpos : (pySortByPosition v.components).map (fun c => c.position) =
      rangeInt v.components.length)
    (hfirst : pyStrip ((pySortByPosition v.components).headI).component_type = str "Headline")
    (hadj : List.Chain' (fun a b => ¬(pyStrip a.component_type = str "Headline" ∧
      pyStrip b.component_type = str "Headline")) (pySortByPosition v.components))
    (hkinds : ∀ c ∈ v.components, pyStrip c.component_type = str "Text" ∨
      pyStrip c.component_type = str "Headline") :
    validate_script_structure e v =
      ValidationOutcome.ok { v with components := pySortByPosition v.components } ∧
    List.Chain' (fun a b => a.position < b.position) (pySortByPosition v.components) := by
  have hkinds' : ∀ c ∈ pySortByPosition v.components,
      pyStrip c.component_type = str "Text" ∨ pyStrip c.component_type = str "Headline" :=
    fun c hc => hkinds c (mem_pySortByPosition _ c hc)
  have hchainInt : List.Chain' (· < ·) (rangeInt v.components.length) := by
    unfold rangeInt
    apply List.chain'_map_of_chain' (fun i : Nat => (i : Int))
    · intro a b hab
      exact Int.ofNat_lt.mpr hab
    · exact (List.pairwise_lt_range _).chain'
  have hchainPos : List.Chain' (fun a b => a.position < b.position)
      (pySortByPosition v.components) := by
    have h2 : List.Chain' (· < ·)
        ((pySortByPosition v.components).map (fun c => c.position)) := by
      rw [hpos]; exact hchainInt
    exact (List.chain'_map _).mp h2
  refine ⟨?_, hchainPos⟩
  have hnot : ¬(e ≠ str "paper_id" ∧ v.paper_id ≠ e) := fun hh => hh.2 hpid
  rw [validate_else e v hnot]
  obtain ⟨f, r, hs⟩ : ∃ f r, pySortByPosition v.components = f :: r := by
    cases hsv : pySortByPosition v.components with
    | nil =>
      exfalso
      have hl := length_pySortByPosition v.components
      rw [hsv] at hl
      exact hn (List.length_eq_zero.mp hl.symm)
    | cons f r => exact ⟨f, r, rfl⟩
  rw [hs]
  simp only
  have hlen : (f :: r).length = v.components.length := by
    rw [← hs, length_pySortByPosition]
  have hc2 : ¬((f :: r).map (fun c => c.position) ≠ rangeInt (f :: r).length) := by
    intro hne
    apply hne
    rw [hlen, ← hs]
    exact hpos
  have hc3 : ¬(pyStrip f.component_type ≠ str "Headline") := by
    intro hne
    apply hne
    rw [hs] at hfirst
    exact hfirst
  have hadjnil : adjacentErrors (f :: r) = [] := by
    apply adjacentErrors_eq_nil
    · rw [← hs]; exact hadj
    · intro c hc
      apply hkinds'
      rw [hs]
      exact hc
  have htypenil : componentTypeErrors (f :: r) = [] := by
    apply componentTypeErrors_eq_nil
    intro c hc
    apply hkinds'
    rw [hs]
    exact hc
  rw [if_pos]
  rw [if_neg (fun hh => hn hh), if_neg hc2, if_neg hc3, hadjnil, htypenil]
  rfl

/-- Witness for C5 on a concrete shuffled two-component script. -/
theorem C5_witness :
    validate_script_structure (str "1234.5678")
      { title := str "T", paper_id := str "1234.5678", target_duration_minutes := 5,
        components := [{ component_type := str "Text", content := str "b", position := 1 },
          { component_type := str "Headline", content := str "a", position := 0 }] } =
      ValidationOutcome.ok
        { title := str "T", paper_id := str "1234.5678", target_duration_minutes := 5,
          components := pySortByPosition
            [{ component_type := str "Text", content := str "b", position := 1 },
              { component_type := str "Headline", content := str "a", position := 0 }] } ∧
    List.Chain' (fun a b => a.position < b.position)
      (pySortByPosition [{ component_type := str "Text", content := str "b", position := 1 },
        { component_type := str "Headline", content := str "a", position := 0 }]) :=
  C5_valid_scripts_accepted (str "1234.5678") _ (by decide) (by decide) (by decide)
    (by decide)
    (by
      rw [show pySortByPosition
          [{ component_type := str "Text", content := str "b", position := 1 },
            { component_type := str "Headline", content := str "a", position := 0 }] =
          [{ component_type := str "Headline", content := str "a", position := 0 },
            { component_type := str "Text", content := str "b", position := 1 }] from by decide]
      rw [List.chain'_cons]
      exact ⟨by decide, List.chain'_singleton _⟩)
    (by decide)

theorem takeWhile_append_stop (p : Char → Bool) : ∀ (xs : Str) (y : Char) (ys : Str),
    (∀ x ∈ xs, p x = true) → p y = false →
    (xs ++ y :: ys).takeWhile p = xs ∧ (xs ++ y :: ys).dropWhile p = y :: ys := by
  intro xs
  induction xs with
  | nil =>
    intro y ys _ hy
    simp [List.takeWhile_cons, List.dropWhile_cons, hy]
  | cons x xt ih =>
    intro y ys hall hy
    have hx : p x = true := hall x (by simp)
    have hrec := ih y ys (fun a ha => hall a (by simp [ha])) hy
    simp only [List.cons_append, List.takeWhile_cons, List.dropWhile_cons, hx]
    simp [hrec.1, hrec.2]

theorem parseScriptLine_mk (kind content : Str) (hk : ∀ c ∈ kind, c ≠ ':') :
    parseScriptLine ('\\' :: (kind ++ str ": " ++ content)) = some (kind, content) := by
  have hform : kind ++ str ": " ++ content = kind ++ ':' :: ' ' :: content := by
    simp [List.append_assoc]
    rfl
  have hstop := takeWhile_append_stop (fun c => decide (c ≠ ':')) kind ':' (' ' :: content)
    (fun x hx => by simp [hk x hx]) (by decide)
  unfold parseScriptLine
  simp only [hform]
  rw [hstop.2, hstop.1]
  rfl

theorem ok_of_ite (E : List Str) (x s' : ArxflixScript)
    (h : (if E = [] then ValidationOutcome.ok x else ValidationOutcome.valueError E) =
      ValidationOutcome.ok s') :
    s' = x ∧ E = [] := by
  by_cases hE : E = []
  · rw [if_pos hE] at h
    injection h with h'
    exact ⟨h'.symm, hE⟩
  · rw [if_neg hE] at h
    exact absurd h (by simp)

theorem validate_ok_components (e : Str) (s s' : ArxflixScript)
    (h : validate_script_structure e s = ValidationOutcome.ok s') :
    s'.components ≠ [] ∧ componentTypeErrors s'.components = [] := by
  by_cases hc : e ≠ str "paper_id" ∧ s.paper_id ≠ e
  · rw [validate_mismatch e s hc.1 hc.2] at h
    exact absurd h (by simp)
  · rw [validate_else e s hc] at h
    cases hs : pySortByPosition s.components with
    | nil =>
      rw [hs] at h
      exact absurd h (by simp)
    | cons f r =>
      rw [hs] at h
      obtain ⟨hs', hE⟩ := ok_of_ite _ _ _ h
      subst hs'
      simp only
      refine ⟨by simp, ?_⟩
      simp only [List.append_eq_nil] at hE
      exact hE.2

theorem kinds_of_componentTypeErrors_nil : ∀ (l : List ScriptComponent),
    componentTypeErrors l = [] →
    ∀ c ∈ l, pyStrip c.component_type = str "Text" ∨
      pyStrip c.component_type = str "Headline" := by
  intro l
  induction l with
  | nil => intro _ c hc; simp at hc
  | cons a rest ih =>
    intro h c hc
    simp only [componentTypeErrors] at h
    rcases List.append_eq_nil.mp h with ⟨h1, h2⟩
    rcases List.mem_cons.mp hc with rfl | hc
    · by_cases hcond : pyStrip c.component_type ≠ str "Text" ∧
          pyStrip c.component_type ≠ str "Headline"
      · rw [if_pos hcond] at h1
        simp at h1
      · rcases Decidable.not_and_iff_or_not.mp hcond with h' | h'
        · exact Or.inl (Decidable.not_not.mp h')
        · exact Or.inr (Decidable.not_not.mp h')
    · exact ih h2 c hc

/--
C8 counterexample: a script whose second component's content itself
contains a newline followed by a line in serialized form passes
validation unchanged, but serializing and re-parsing it yields three
`(kind, content)` pairs instead of the original two — the round trip
fails for validated scripts with newlines in content.
-/
theorem C8_counterexample :
    validate_script_structure (str "1234.5678")
      { title := str "T", paper_id := str "1234.5678", target_duration_minutes := 5,
        components := [{ component_type := str "Headline", content := str "H", position := 0 },
          { component_type := str "Text", content := str "a\n\\Text: b", position := 1 }] } =
      ValidationOutcome.ok
        { title := str "T", paper_id := str "1234.5678", target_duration_minutes := 5,
          components := [{ component_type := str "Headline", content := str "H", position := 0 },
            { component_type := str "Text", content := str "a\n\\Text: b", position := 1 }] } ∧
    parseScriptText (reconstruct_script
      { title := str "T", paper_id := str "1234.5678", target_duration_minutes := 5,
        components := [{ component_type := str "Headline", content := str "H", position := 0 },
          { component_type := str "Text", content := str "a\n\\Text: b", position := 1 }] }) ≠
      some (List.map (fun c => (pyStrip c.component_type, c.content))
        ([{ component_type := str "Headline", content := str "H", position := 0 },
          { component_type := str "Text", content := str "a\n\\Text: b", position := 1 }] :
            List ScriptComponent)) := by
  constructor <;> decide

/--
C8 (amended): for every validated script none of whose component contents
contains a newline, `reconstruct_script` emits one line per component of
the form backslash-Kind-colon-space-content in the validated order, and
parsing that text back by the same line format recovers exactly the
ordered sequence of (kind, content) pairs (with the kind the stripped
component type, which validation has confirmed to be `Text` or
`Headline`).  A newline inside a content breaks the line discipline and
the round trip (see the counterexample).
-/
theorem C8_roundtrip (e : Str) (s s' : ArxflixScript)
    (hval : validate_script_structure e s = ValidationOutcome.ok s')
    (hnl : ∀ c ∈ s'.components, '\n' ∉ c.content) :
    parseScriptText (reconstruct_script s') =
      some (s'.components.map (fun c => (pyStrip c.component_type, c.content))) := by
  obtain ⟨hne, htyp⟩ := validate_ok_components e s s' hval
  have hkinds := kinds_of_componentTypeErrors_nil s'.components htyp
  have hlinefree : ∀ L ∈ s'.components.map (fun comp =>
      '\\' :: (pyStrip comp.component_type ++ str ": " ++ comp.content)), '\n' ∉ L := by
    intro L hL
    rcases List.mem_map.mp hL with ⟨c, hcmem, rfl⟩
    intro hnlmem
    rcases List.mem_cons.mp hnlmem with h' | h'
    · exact absurd h' (by decide)
    · rcases List.mem_append.mp h' with h2 | h2
      · rcases List.mem_append.mp h2 with h3 | h3
        · rcases hkinds c hcmem with hk | hk <;> rw [hk] at h3 <;> revert h3 <;> decide
        · revert h3
          decide
      · exact hnl c hcmem h2
  have hparse : ∀ (cs : List ScriptComponent),
      (∀ c ∈ cs, pyStrip c.component_type = str "Text" ∨
        pyStrip c.component_type = str "Headline") →
      parseScriptLines (cs.map (fun comp =>
        '\\' :: (pyStrip comp.component_type ++ str ": " ++ comp.content))) =
        some (cs.map (fun c => (pyStrip c.component_type, c.content))) := by
    intro cs
    induction cs with
    | nil => intro _; rfl
    | cons c rest ih =>
      intro hk
      simp only [List.map_cons, parseScriptLines]
      rw [parseScriptLine_mk _ _ ?_, ih (fun d hd => hk d (List.mem_cons_of_mem c hd))]
      · intro ch hch
        rcases hk c (by simp) with h | h
        · rw [h] at hch
          exact (by decide : ∀ x ∈ (str "Text" : Str), x ≠ ':') ch hch
        · rw [h] at hch
          exact (by decide : ∀ x ∈ (str "Headline" : Str), x ≠ ':') ch hch
  show parseScriptLines (splitOnNl (joinNl (s'.components.map _))) = _
  rw [splitOnNl_joinNl _ (by simp [hne]) hlinefree]
  exact hparse s'.components hkinds

/-- Witness for C8 (amended) on a concrete validated two-component script. -/
theorem C8_witness :
    parseScriptText (reconstruct_script
      { title := str "T", paper_id := str "1234.5678", target_duration_minutes := 5,
        components := [{ component_type := str "Headline", content := str "H", position := 0 },
          { component_type := str "Text", content := str "W", position := 1 }] }) =
      some (List.map (fun c => (pyStrip c.component_type, c.content))
        ([{ component_type := str "Headline", content := str "H", position := 0 },
          { component_type := str "Text", content := str "W", position := 1 }] :
            List ScriptComponent)) :=
  C8_roundtrip (str "1234.5678")
    { title := str "T", paper_id := str "1234.5678", target_duration_minutes := 5,
      components := [{ component_type := str "Headline", content := str "H", position := 0 },
        { component_type := str "Text", content := str "W", position := 1 }] }
    _ (by decide) (by decide)
